import Mathlib

/-!
# Verification of the MacDive critter-category reconciliation engine

Shallow embedding of `src/commands/critters.rs` (functions `diff_critters`
and `diff_critter_categories`) together with a model of the memoizing
taxonomy cache of `crate::inaturalist` (whose source is not part of this
repository snapshot and is therefore modelled from the specification).

Rust `HashMap`s are embedded as association lists with first-match lookup;
`HashMap::insert` removes any previous binding for the key before consing
the new one, so lookup agrees with the overwrite semantics of the source.
The `extraneous_categories: Vec<String>` is consumed by `Vec::pop` (which
removes the *last* element); we embed that vector in pop order, i.e. the
head of the embedded list is the element the next `pop` returns.  The order
of that vector in the source comes from iterating a `HashSet` difference
and is therefore an arbitrary enumeration of the extraneous-name set; it is
a parameter of the embedded run.
-/

/-- The fields of a MacDive critter used by the reconciliation code
(`Z_PK AS id`, `ZNAME AS name`, `ZSPECIES AS species`,
`ZRELATIONSHIPCRITTERTOCRITTERCATEGORY AS category`). -/
structure Critter where
  id : Int
  name : Option String
  species : Option String
  category : Option Int
deriving DecidableEq, Repr

/-- A MacDive critter category: stable `id` plus optional display `name`. -/
structure Category where
  id : Int
  name : Option String
deriving DecidableEq, Repr

/-- First-match lookup in an association list, the embedding of
`HashMap::get`. -/
def mapGet {α β : Type} [DecidableEq α] (k : α) : List (α × β) → Option β
  | [] => none
  | p :: rest => if p.1 = k then some p.2 else mapGet k rest

/-- Removal of every binding of a key, the embedding of `HashMap::remove`
(applied to maps that hold at most one binding per key). -/
def mapErase {α β : Type} [DecidableEq α] (k : α) : List (α × β) → List (α × β)
  | [] => []
  | p :: rest => if p.1 = k then mapErase k rest else p :: mapErase k rest

/-- Overwriting insert, the embedding of `HashMap::insert`. -/
def mapInsert {α β : Type} [DecidableEq α] (k : α) (v : β) (m : List (α × β)) : List (α × β) :=
  (k, v) :: mapErase k m

/-- Outcome of resolving one species name in `diff_critter_categories`
(lines 121-138 of `critters.rs`): the taxon lookup and the subsequent
group-name classification each may fail. -/
inductive ResolveOutcome where
  | ok (groupName : String)
  | classifyFailed
  | lookupFailed
deriving DecidableEq, Repr

/-- A diagnostic message emitted by the run: the `tracing::error!("Taxon
lookup failed")` of the group-resolution pass, and the
`eprintln!("This should not happen - no new category")` of the per-critter
loop. -/
inductive Diag where
  | taxonLookupFailed (species : String)
  | shouldNotHappen (species : String)
deriving DecidableEq, Repr

/-- One reconciliation-plan entry, the decision the per-critter `match`
takes.  `noOp` embeds the silent `(Some(_), Some(_))` arm ("Old and new
category are identical"); the other entries correspond to the
`Re-Assigning` / `Renaming category` / `new category` messages. -/
inductive PlanEntry where
  | noOp (critterId : Int)
  | reassign (critterId : Int) (fromCategory : Option Int) (toCategory : Int)
  | renameAndReuse (critterId : Int) (reusedCategoryId : Int)
      (oldName : Option String) (newName : String)
  | createNew (critterId : Int) (desiredName : String)
deriving DecidableEq, Repr

/-- The mutable state threaded through the per-critter loop of
`diff_critter_categories`: the `current_categories` map, the
`category_index`, the `extraneous_categories` worklist (in pop order), and
the accumulated plan and diagnostics. -/
structure DiffState where
  currentCategories : List (String × Category)
  categoryIndex : List (Int × String)
  extraneous : List String
  plan : List PlanEntry
  diags : List Diag
deriving DecidableEq, Repr

/-- `critter.category.and_then(|id| category_index.get(&id).and_then(|key|
current_categories.get(key)))` — the critter's current category, if its id
resolves through the index and the map. -/
def currentCategoryOf (s : DiffState) (c : Critter) : Option Category :=
  c.category.bind fun cid =>
    (mapGet cid s.categoryIndex).bind fun key => mapGet key s.currentCategories

/-- `critter_groups.get(scientific_name).and_then(|v|
current_categories.get(&change_case::lower_case(&v.to_string())))` — the
already-existing category matching the critter's desired group name. -/
def desiredCategoryOf (lc : String → String) (groups : List (String × String))
    (s : DiffState) (sci : String) : Option Category :=
  (mapGet sci groups).bind fun g => mapGet (lc g) s.currentCategories

/-- The `(Some(_cc), None)` arm with a resolvable group name: pop one key
from the extraneous worklist; if it maps to a category, rename that
category in place (re-inserting it under the lower-cased new name and
repointing the index), else report that a brand-new category is needed.
An empty pool also reports a brand-new category. -/
def attemptReuse (lc : String → String) (s : DiffState) (c : Critter) (g : String) :
    DiffState :=
  match s.extraneous with
  | [] => { s with plan := s.plan ++ [.createNew c.id g] }
  | key :: rest =>
    match mapGet key s.currentCategories with
    | some cat =>
      let newKey := lc g
      { s with
        currentCategories :=
          mapInsert newKey { cat with name := some g } (mapErase key s.currentCategories)
        categoryIndex := mapInsert cat.id newKey s.categoryIndex
        extraneous := rest
        plan := s.plan ++ [.renameAndReuse c.id cat.id cat.name g] }
    | none =>
      { s with
        currentCategories := mapErase key s.currentCategories
        extraneous := rest
        plan := s.plan ++ [.createNew c.id g] }

/-- One iteration of the per-critter loop (lines 160-268 of `critters.rs`).
`Except.error` embeds the panic of `critter_groups.get(scientific_name)
.unwrap()` in the `(None, None)` arm when the group map has no entry for
the species; the carried state is the state at the moment of the panic. -/
def processCritter (lc : String → String) (groups : List (String × String))
    (s : DiffState) (c : Critter) : Except DiffState DiffState :=
  match c.species with
  | none => .ok s
  | some sci =>
    match currentCategoryOf s c, desiredCategoryOf lc groups s sci with
    | some cc, some dc =>
      if cc.id ≠ dc.id then
        .ok { s with plan := s.plan ++ [.reassign c.id (some cc.id) dc.id] }
      else
        .ok { s with plan := s.plan ++ [.noOp c.id] }
    | none, some dc => .ok { s with plan := s.plan ++ [.reassign c.id none dc.id] }
    | some _, none =>
      match mapGet sci groups with
      | some g => .ok (attemptReuse lc s c g)
      | none => .ok { s with diags := s.diags ++ [.shouldNotHappen sci] }
    | none, none =>
      match mapGet sci groups with
      | some g => .ok { s with plan := s.plan ++ [.createNew c.id g] }
      | none => .error s

/-- The per-critter loop: sequential, in source catalog order, stopping
only at a panic. -/
def processAll (lc : String → String) (groups : List (String × String))
    (s : DiffState) : List Critter → Except DiffState DiffState
  | [] => .ok s
  | c :: rest =>
    match processCritter lc groups s c with
    | .ok s' => processAll lc groups s' rest
    | .error s' => .error s'

/-- The group-resolution pass (lines 121-138): for each critter species in
catalog order, a successful lookup-plus-classification inserts
`(species, groupName)` into the map, a failed classification is silently
dropped, and a failed lookup logs a `Taxon lookup failed` diagnostic. -/
def buildGroupsAux (resolve : String → ResolveOutcome)
    (acc : List (String × String) × List Diag) :
    List Critter → List (String × String) × List Diag
  | [] => acc
  | c :: rest =>
    buildGroupsAux resolve
      (match c.species with
       | none => acc
       | some sci =>
         match resolve sci with
         | .ok g => (mapInsert sci g acc.1, acc.2)
         | .classifyFailed => acc
         | .lookupFailed => (acc.1, acc.2 ++ [.taxonLookupFailed sci])) rest

/-- `critter_groups` together with the lookup-failure diagnostics. -/
def buildGroups (resolve : String → ResolveOutcome) (critters : List Critter) :
    List (String × String) × List Diag :=
  buildGroupsAux resolve ([], []) critters

/-- `current_categories`: categories keyed by the lower-cased name,
categories without a name dropped, later duplicates overwriting earlier
ones (lines 109-119). -/
def mkCurrentCategories (lc : String → String) (cats : List Category) :
    List (String × Category) :=
  cats.foldl
    (fun m cat =>
      match cat.name with
      | none => m
      | some n => mapInsert (lc n) cat m) []

/-- `category_index`: id → normalized-name key, built from the current
category map (lines 155-158). -/
def mkCategoryIndex (m : List (String × Category)) : List (Int × String) :=
  m.foldl (fun idx p => mapInsert p.2.id p.1 idx) []

/-- `current_names`: the keys of the category map, lower-cased again
(lines 140-143). -/
def currentNamesOf (lc : String → String) (m : List (String × Category)) : List String :=
  m.map (fun p => lc p.1)

/-- `desired_names`: the lower-cased group names of the resolution map
(lines 145-148). -/
def desiredNamesOf (lc : String → String) (groups : List (String × String)) : List String :=
  groups.map (fun p => lc p.2)

/-- The pool parameter is a faithful enumeration of the extraneous-name
set `current_names \ desired_names` (the source iterates a `HashSet`
difference, in no fixed order). -/
def validPool (lc : String → String) (m : List (String × Category))
    (groups : List (String × String)) (pool : List String) : Prop :=
  pool.Nodup ∧
  (∀ k ∈ pool, k ∈ currentNamesOf lc m ∧ k ∉ desiredNamesOf lc groups) ∧
  (∀ k ∈ currentNamesOf lc m, k ∉ desiredNamesOf lc groups → k ∈ pool)

/-- The whole of `diff_critter_categories` after the database reads: build
the category map, index and group map, then run the per-critter loop.
`pool` is the enumeration order of the extraneous-name set. -/
def diffCritterCategories (lc : String → String) (resolve : String → ResolveOutcome)
    (critters : List Critter) (cats : List Category) (pool : List String) :
    Except DiffState DiffState :=
  let m := mkCurrentCategories lc cats
  let gd := buildGroups resolve critters
  processAll lc gd.1
    { currentCategories := m
      categoryIndex := mkCategoryIndex m
      extraneous := pool
      plan := []
      diags := gd.2 } critters

/-- The state a run ends in, whether it completed or panicked. -/
def resultState : Except DiffState DiffState → DiffState
  | .ok s => s
  | .error s => s

/-- The model of `change_case::lower_case` used at concrete inputs:
character-wise lower-casing (the embedded runs apply it to single-word
names, where this agrees with `change_case::lower_case`). -/
def lowerCase (s : String) : String := String.mk (s.data.map Char.toLower)

/-- Whether a plan entry is a `RenameAndReuse`. -/
def isReuse : PlanEntry → Bool
  | .renameAndReuse _ _ _ _ => true
  | _ => false

/-- Number of `RenameAndReuse` entries of a plan. -/
def countReuses (plan : List PlanEntry) : Nat := (plan.filter isReuse).length

/-- The critter an entry is about. -/
def entryCritterId : PlanEntry → Int
  | .noOp i => i
  | .reassign i _ _ => i
  | .renameAndReuse i _ _ _ => i
  | .createNew i _ => i

/-! ## Association-list lemmas -/

theorem mapGet_erase_self {α β : Type} [DecidableEq α] (k : α) (m : List (α × β)) :
    mapGet k (mapErase k m) = none := by
  induction m with
  | nil => rfl
  | cons p rest ih =>
    by_cases h : p.1 = k
    · simpa [mapErase, h] using ih
    · simpa [mapErase, mapGet, h] using ih

theorem mapGet_erase_ne {α β : Type} [DecidableEq α] {k k' : α} (m : List (α × β))
    (h : k' ≠ k) : mapGet k' (mapErase k m) = mapGet k' m := by
  induction m with
  | nil => rfl
  | cons p rest ih =>
    by_cases hp : p.1 = k
    · have hp' : p.1 ≠ k' := fun e => h (e.symm.trans hp)
      have hk : ¬ (k = k') := fun e => h e.symm
      simp [mapErase, mapGet, hp, hp', hk, ih]
    · by_cases hq : p.1 = k'
      · simp [mapErase, mapGet, hp, hq, h]
      · simp [mapErase, mapGet, hp, hq, ih]

theorem mapGet_insert_self {α β : Type} [DecidableEq α] (k : α) (v : β) (m : List (α × β)) :
    mapGet k (mapInsert k v m) = some v := by
  simp [mapInsert, mapGet]

theorem mapGet_insert_ne {α β : Type} [DecidableEq α] {k k' : α} (v : β) (m : List (α × β))
    (h : k' ≠ k) : mapGet k' (mapInsert k v m) = mapGet k' m := by
  have hk : ¬ (k = k') := fun e => h e.symm
  have he := mapGet_erase_ne m h
  simp [mapInsert, mapGet, hk, he]

theorem mapGet_ne_none_of_mem_keys {α β : Type} [DecidableEq α] {k : α} (m : List (α × β)) :
    k ∈ m.map Prod.fst → mapGet k m ≠ none := by
  induction m with
  | nil => intro h; simp at h
  | cons p rest ih =>
    intro h
    by_cases hp : p.1 = k
    · simp [mapGet, hp]
    · have hmem : k ∈ rest.map Prod.fst := by
        simp only [List.map_cons] at h
        rcases List.mem_cons.mp h with h1 | h1
        · exact absurd h1.symm hp
        · exact h1
      simpa [mapGet, hp] using ih hmem

theorem desiredCategoryOf_resolved {lc : String → String} {groups : List (String × String)}
    {sci g : String} (s : DiffState) (hg : mapGet sci groups = some g) :
    desiredCategoryOf lc groups s sci = mapGet (lc g) s.currentCategories := by
  simp [desiredCategoryOf, hg]

/-! ## C1 — a failed lookup for a category-less critter panics the run -/

/-- C1: the claim says a `LookupError` never aborts the run, the entity
merely landing in the diagnostics.  The code violates this: for a critter
whose species lookup fails and whose `category` is `None`, the
`(None, None)` arm evaluates `critter_groups.get(scientific_name).unwrap()`
on `None` and panics, aborting the whole run.  This theorem evaluates the
embedded run at that failing input: the result is the panic (`.error`),
with the lookup-failure diagnostic recorded but the run aborted. -/
theorem c1_failed_lookup_aborts_run :
    diffCritterCategories lowerCase (fun _ => .lookupFailed)
      [{ id := 1, name := none, species := some "z", category := none }] [] [] =
    .error { currentCategories := [], categoryIndex := [], extraneous := [],
             plan := [], diags := [.taxonLookupFailed "z"] } := by
  rfl

/-! ## C2 — the per-entity decision table -/

/-- C2: for an entity with a resolvable desired group name, the plan entry
is determined by the pair (currentCategory, desiredCategory) exactly as the
decision table states: both set with equal ids gives `NoOp`; both set with
differing ids gives `Reassign` from current to desired; current absent and
desired set gives `Reassign` from none; current set and desired absent
triggers the Step-3 reuse attempt; both absent emits `CreateNewCategory`
with no pool interaction. -/
theorem c2_decision_table (lc : String → String) (groups : List (String × String))
    (s : DiffState) (c : Critter) (sci g : String)
    (hs : c.species = some sci) (hg : mapGet sci groups = some g) :
    (∀ cc dc, currentCategoryOf s c = some cc →
      desiredCategoryOf lc groups s sci = some dc → cc.id = dc.id →
      processCritter lc groups s c = .ok { s with plan := s.plan ++ [.noOp c.id] }) ∧
    (∀ cc dc, currentCategoryOf s c = some cc →
      desiredCategoryOf lc groups s sci = some dc → cc.id ≠ dc.id →
      processCritter lc groups s c =
        .ok { s with plan := s.plan ++ [.reassign c.id (some cc.id) dc.id] }) ∧
    (∀ dc, currentCategoryOf s c = none →
      desiredCategoryOf lc groups s sci = some dc →
      processCritter lc groups s c =
        .ok { s with plan := s.plan ++ [.reassign c.id none dc.id] }) ∧
    (∀ cc, currentCategoryOf s c = some cc →
      desiredCategoryOf lc groups s sci = none →
      processCritter lc groups s c = .ok (attemptReuse lc s c g)) ∧
    (currentCategoryOf s c = none → desiredCategoryOf lc groups s sci = none →
      processCritter lc groups s c =
        .ok { s with plan := s.plan ++ [.createNew c.id g] }) := by
  refine ⟨?_, ?_, ?_, ?_, ?_⟩
  · intro cc dc hcc hdc heq
    simp [processCritter, hs, hcc, hdc, heq]
  · intro cc dc hcc hdc hne
    simp [processCritter, hs, hcc, hdc, hne]
  · intro dc hcc hdc
    simp [processCritter, hs, hcc, hdc]
  · intro cc hcc hdc
    simp [processCritter, hs, hcc, hdc, hg]
  · intro hcc hdc
    simp [processCritter, hs, hcc, hdc, hg]

/-- Witness for C2 at a concrete state: both categories set with equal ids
yields exactly a `NoOp` entry. -/
theorem c2_decision_table_witness :
    processCritter lowerCase [("sx", "fish")]
      { currentCategories := [("fish", { id := 1, name := some "Fish" })]
        categoryIndex := [(1, "fish")]
        extraneous := []
        plan := []
        diags := [] }
      { id := 10, name := none, species := some "sx", category := some 1 } =
    .ok { currentCategories := [("fish", { id := 1, name := some "Fish" })]
          categoryIndex := [(1, "fish")]
          extraneous := []
          plan := [.noOp 10]
          diags := [] } :=
  (c2_decision_table lowerCase [("sx", "fish")] _ _ "sx" "fish" rfl rfl).1
    { id := 1, name := some "Fish" } { id := 1, name := some "Fish" }
    (by decide) (by decide) rfl

/-! ## C5 — empty pool falls back to category creation, without failing -/

/-- C5: when an entity currently has a category, its desired group name is
resolvable but matches no existing category, and the extraneous pool is
empty at that moment, the step emits `CreateNewCategory` for the desired
name and succeeds (`.ok`, no failure); no other component of the state
changes. -/
theorem c5_empty_pool_creates (lc : String → String) (groups : List (String × String))
    (s : DiffState) (c : Critter) (sci g : String) (cc : Category)
    (hs : c.species = some sci)
    (hcc : currentCategoryOf s c = some cc)
    (hg : mapGet sci groups = some g)
    (hd : mapGet (lc g) s.currentCategories = none)
    (hpool : s.extraneous = []) :
    processCritter lc groups s c = .ok { s with plan := s.plan ++ [.createNew c.id g] } := by
  have hdc : desiredCategoryOf lc groups s sci = none := by
    simp [desiredCategoryOf, hg, hd]
  simp [processCritter, hs, hcc, hdc, hg, attemptReuse, hpool]

/-- Witness for C5: one critter with a current category, a resolvable
group name matching no category, and an empty pool. -/
theorem c5_empty_pool_creates_witness :
    processCritter lowerCase [("sy", "Mollusk")]
      { currentCategories := [("fish", { id := 1, name := some "Fish" })]
        categoryIndex := [(1, "fish")]
        extraneous := []
        plan := []
        diags := [] }
      { id := 11, name := none, species := some "sy", category := some 1 } =
    .ok { currentCategories := [("fish", { id := 1, name := some "Fish" })]
          categoryIndex := [(1, "fish")]
          extraneous := []
          plan := [.createNew 11 "Mollusk"]
          diags := [] } :=
  c5_empty_pool_creates lowerCase [("sy", "Mollusk")] _ _ "sy" "Mollusk"
    { id := 1, name := some "Fish" } rfl (by decide) rfl (by decide) rfl

/-! ## C10 — the rename-and-reuse step is a frame-preserving rename -/

/-- C10: a `RenameAndReuse` step preserves the reused category's id: the
old normalized-name key is removed, the new key maps to the same category
with only its name changed, the id-to-key index is repointed for that id
only, and every other binding of both maps is untouched. -/
theorem c10_rename_frame (lc : String → String) (s : DiffState) (c : Critter)
    (g key : String) (rest : List String) (cat : Category)
    (hpool : s.extraneous = key :: rest)
    (hcat : mapGet key s.currentCategories = some cat)
    (hnew : mapGet (lc g) s.currentCategories = none) :
    mapGet (lc g) (attemptReuse lc s c g).currentCategories =
      some { cat with name := some g } ∧
    mapGet key (attemptReuse lc s c g).currentCategories = none ∧
    (∀ k, k ≠ key → k ≠ lc g →
      mapGet k (attemptReuse lc s c g).currentCategories =
        mapGet k s.currentCategories) ∧
    mapGet cat.id (attemptReuse lc s c g).categoryIndex = some (lc g) ∧
    (∀ i, i ≠ cat.id →
      mapGet i (attemptReuse lc s c g).categoryIndex = mapGet i s.categoryIndex) ∧
    (attemptReuse lc s c g).plan = s.plan ++ [.renameAndReuse c.id cat.id cat.name g] := by
  have hkey_ne : key ≠ lc g := fun e => by
    rw [e, hnew] at hcat; exact Option.noConfusion hcat
  have hstep : attemptReuse lc s c g =
      { s with
        currentCategories :=
          mapInsert (lc g) { cat with name := some g } (mapErase key s.currentCategories)
        categoryIndex := mapInsert cat.id (lc g) s.categoryIndex
        extraneous := rest
        plan := s.plan ++ [.renameAndReuse c.id cat.id cat.name g] } := by
    simp [attemptReuse, hpool, hcat]
  refine ⟨?_, ?_, ?_, ?_, ?_, ?_⟩
  · rw [hstep]; exact mapGet_insert_self _ _ _
  · rw [hstep]
    have h1 := mapGet_insert_ne
      { cat with name := some g } (mapErase key s.currentCategories) hkey_ne
    simpa [h1] using mapGet_erase_self key s.currentCategories
  · intro k hk1 hk2
    rw [hstep]
    have h1 := mapGet_insert_ne
      { cat with name := some g } (mapErase key s.currentCategories) hk2
    have h2 := mapGet_erase_ne s.currentCategories hk1
    simpa [h1] using h2
  · rw [hstep]
    exact mapGet_insert_self cat.id (lc g) s.categoryIndex
  · intro i hi
    rw [hstep]
    exact mapGet_insert_ne (lc g) s.categoryIndex hi
  · rw [hstep]

/-- Concrete state for the C10 witness: one extraneous category `coral`
and one desired category `fish`. -/
def c10State : DiffState :=
  { currentCategories :=
      [("coral", { id := 2, name := some "Coral" }),
       ("fish", { id := 1, name := some "Fish" })]
    categoryIndex := [(2, "coral"), (1, "fish")]
    extraneous := ["coral"]
    plan := []
    diags := [] }

/-- Concrete critter for the C10 witness. -/
def c10Critter : Critter :=
  { id := 7, name := none, species := some "sy", category := some 1 }

/-- Witness for C10: renaming `coral` to `Mollusk` keeps id 2, removes the
old key, adds the new key, repoints the index and leaves `fish` alone. -/
theorem c10_rename_frame_witness :
    mapGet "mollusk" (attemptReuse lowerCase c10State c10Critter "Mollusk").currentCategories =
      some { id := 2, name := some "Mollusk" } ∧
    mapGet "coral" (attemptReuse lowerCase c10State c10Critter "Mollusk").currentCategories =
      none ∧
    mapGet "fish" (attemptReuse lowerCase c10State c10Critter "Mollusk").currentCategories =
      mapGet "fish" c10State.currentCategories ∧
    mapGet 2 (attemptReuse lowerCase c10State c10Critter "Mollusk").categoryIndex =
      some "mollusk" ∧
    mapGet 1 (attemptReuse lowerCase c10State c10Critter "Mollusk").categoryIndex =
      mapGet 1 c10State.categoryIndex := by
  have h := c10_rename_frame lowerCase c10State c10Critter
    "Mollusk" "coral" [] { id := 2, name := some "Coral" }
    rfl (by decide) (by decide)
  exact ⟨h.1, h.2.1, h.2.2.1 "fish" (by decide) (by decide), h.2.2.2.1,
    h.2.2.2.2.1 1 (by decide)⟩

/-! ## C3 — collapsing: a reuse is visible to later entities -/

/-- C3: if two entities in processing order desire the same group name
that matches no existing category, both lookups are resolvable, the first
entity has a current category, and the pool offers a key that maps to a
category, then processing the pair produces exactly one `RenameAndReuse`
(for the first entity), the desired-name map is updated immediately by the
rename, and the second entity collapses to `Reassign` (or `NoOp`) against
the renamed category — never a second reuse or a creation for that name. -/
theorem c3_collapsing (lc : String → String) (groups : List (String × String))
    (s : DiffState) (e1 e2 : Critter) (s1 s2 g1 g2 key : String)
    (rest : List String) (cc1 cat : Category)
    (h1 : e1.species = some s1) (h2 : e2.species = some s2)
    (hg1 : mapGet s1 groups = some g1) (hg2 : mapGet s2 groups = some g2)
    (hgeq : lc g2 = lc g1)
    (hcc1 : currentCategoryOf s e1 = some cc1)
    (hd1 : mapGet (lc g1) s.currentCategories = none)
    (hpool : s.extraneous = key :: rest)
    (hkey : mapGet key s.currentCategories = some cat) :
    mapGet (lc g2) (attemptReuse lc s e1 g1).currentCategories =
      some { cat with name := some g1 } ∧
    ∃ s' entry2, processAll lc groups s [e1, e2] = .ok s' ∧
      s'.plan = s.plan ++ [.renameAndReuse e1.id cat.id cat.name g1, entry2] ∧
      ((∃ f, entry2 = .reassign e2.id f cat.id) ∨ entry2 = .noOp e2.id) := by
  have hdc1 : desiredCategoryOf lc groups s s1 = none := by
    simp [desiredCategoryOf, hg1, hd1]
  have hstep1 : processCritter lc groups s e1 = .ok (attemptReuse lc s e1 g1) := by
    simp [processCritter, h1, hcc1, hdc1, hg1]
  have hs1 : attemptReuse lc s e1 g1 =
      { s with
        currentCategories := mapInsert (lc g1) { cat with name := some g1 }
          (mapErase key s.currentCategories)
        categoryIndex := mapInsert cat.id (lc g1) s.categoryIndex
        extraneous := rest
        plan := s.plan ++ [.renameAndReuse e1.id cat.id cat.name g1] } := by
    simp [attemptReuse, hpool, hkey]
  have hupd : mapGet (lc g2) (attemptReuse lc s e1 g1).currentCategories =
      some { cat with name := some g1 } := by
    rw [hs1, hgeq]
    exact mapGet_insert_self _ _ _
  have hdc2 : desiredCategoryOf lc groups (attemptReuse lc s e1 g1) s2 =
      some { cat with name := some g1 } := by
    simp [desiredCategoryOf, hg2, hupd]
  refine ⟨hupd, ?_⟩
  cases hcc2 : currentCategoryOf (attemptReuse lc s e1 g1) e2 with
  | none =>
    have hstep2 : processCritter lc groups (attemptReuse lc s e1 g1) e2 =
        .ok { attemptReuse lc s e1 g1 with
              plan := (attemptReuse lc s e1 g1).plan ++ [.reassign e2.id none cat.id] } := by
      simp [processCritter, h2, hcc2, hdc2]
    refine ⟨{ attemptReuse lc s e1 g1 with
              plan := (attemptReuse lc s e1 g1).plan ++ [.reassign e2.id none cat.id] },
            .reassign e2.id none cat.id, ?_, ?_, Or.inl ⟨none, rfl⟩⟩
    · simp [processAll, hstep1, hstep2]
    · simp [hs1]
  | some cc2 =>
    by_cases hid : cc2.id = cat.id
    · have hstep2 : processCritter lc groups (attemptReuse lc s e1 g1) e2 =
          .ok { attemptReuse lc s e1 g1 with
                plan := (attemptReuse lc s e1 g1).plan ++ [.noOp e2.id] } := by
        simp [processCritter, h2, hcc2, hdc2, hid]
      refine ⟨{ attemptReuse lc s e1 g1 with
                plan := (attemptReuse lc s e1 g1).plan ++ [.noOp e2.id] },
              .noOp e2.id, ?_, ?_, Or.inr rfl⟩
      · simp [processAll, hstep1, hstep2]
      · simp [hs1]
    · have hstep2 : processCritter lc groups (attemptReuse lc s e1 g1) e2 =
          .ok { attemptReuse lc s e1 g1 with
                plan := (attemptReuse lc s e1 g1).plan ++
                  [.reassign e2.id (some cc2.id) cat.id] } := by
        simp [processCritter, h2, hcc2, hdc2, hid]
      refine ⟨{ attemptReuse lc s e1 g1 with
                plan := (attemptReuse lc s e1 g1).plan ++
                  [.reassign e2.id (some cc2.id) cat.id] },
              .reassign e2.id (some cc2.id) cat.id, ?_, ?_, Or.inl ⟨some cc2.id, rfl⟩⟩
      · simp [processAll, hstep1, hstep2]
      · simp [hs1]

/-- Concrete state for the C3 witness: category 1 is `old1` (current for
the first critter), category 2 is `pool1` (extraneous). -/
def c3State : DiffState :=
  { currentCategories :=
      [("old1", { id := 1, name := some "Old1" }),
       ("pool1", { id := 2, name := some "Pool1" })]
    categoryIndex := [(1, "old1"), (2, "pool1")]
    extraneous := ["pool1"]
    plan := []
    diags := [] }

/-- Group map for the C3 witness: both species desire `Newg`. -/
def c3Groups : List (String × String) := [("sx", "Newg"), ("sy", "Newg")]

/-- First critter of the C3 witness (has current category 1). -/
def c3E1 : Critter := { id := 10, name := none, species := some "sx", category := some 1 }

/-- Second critter of the C3 witness (no current category). -/
def c3E2 : Critter := { id := 11, name := none, species := some "sy", category := none }

/-- Witness for C3 at a concrete catalog: one rename for the first
critter, the map updated at once, the second critter collapsing. -/
theorem c3_collapsing_witness :
    mapGet (lowerCase "Newg")
      (attemptReuse lowerCase c3State c3E1 "Newg").currentCategories =
      some { id := 2, name := some "Newg" } ∧
    ∃ s' entry2, processAll lowerCase c3Groups c3State [c3E1, c3E2] = .ok s' ∧
      s'.plan = c3State.plan ++
        [.renameAndReuse c3E1.id 2 (some "Pool1") "Newg", entry2] ∧
      ((∃ f, entry2 = .reassign c3E2.id f 2) ∨ entry2 = .noOp c3E2.id) :=
  c3_collapsing lowerCase c3Groups c3State c3E1 c3E2 "sx" "sy" "Newg" "Newg"
    "pool1" [] { id := 1, name := some "Old1" } { id := 2, name := some "Pool1" }
    rfl rfl (by decide) (by decide) rfl (by decide) (by decide) rfl (by decide)

/-! ## C4 — pool conservation -/

theorem countReuses_append (p q : List PlanEntry) :
    countReuses (p ++ q) = countReuses p + countReuses q := by
  simp [countReuses, List.filter_append]

theorem attemptReuse_pool (lc : String → String) (s : DiffState) (c : Critter)
    (g : String) (hnd : s.extraneous.Nodup)
    (hsub : ∀ k ∈ s.extraneous, mapGet k s.currentCategories ≠ none) :
    (attemptReuse lc s c g).extraneous.Nodup ∧
    (∀ k ∈ (attemptReuse lc s c g).extraneous,
      mapGet k (attemptReuse lc s c g).currentCategories ≠ none) ∧
    countReuses (attemptReuse lc s c g).plan +
      (attemptReuse lc s c g).extraneous.length =
      countReuses s.plan + s.extraneous.length ∧
    ∃ t, s.extraneous = t ++ (attemptReuse lc s c g).extraneous := by
  cases hext : s.extraneous with
  | nil =>
    refine ⟨?_, ?_, ?_, ⟨[], ?_⟩⟩ <;>
      simp [attemptReuse, hext, countReuses_append, countReuses, isReuse, hsub]
  | cons key rest =>
    have hk : mapGet key s.currentCategories ≠ none :=
      hsub key (by rw [hext]; exact List.mem_cons_self key rest)
    have hndr : rest.Nodup := by
      rw [hext] at hnd; exact (List.nodup_cons.mp hnd).2
    have hkey_notin : key ∉ rest := by
      rw [hext] at hnd; exact (List.nodup_cons.mp hnd).1
    cases hcat : mapGet key s.currentCategories with
    | none => exact absurd hcat hk
    | some cat =>
      have hstep : attemptReuse lc s c g =
          { s with
            currentCategories := mapInsert (lc g) { cat with name := some g }
              (mapErase key s.currentCategories)
            categoryIndex := mapInsert cat.id (lc g) s.categoryIndex
            extraneous := rest
            plan := s.plan ++ [.renameAndReuse c.id cat.id cat.name g] } := by
        simp [attemptReuse, hext, hcat]
      rw [hstep]
      refine ⟨hndr, ?_, ?_, ⟨[key], by simp [hext]⟩⟩
      · intro k hkr
        have hkne : k ≠ key := fun e => hkey_notin (e ▸ hkr)
        by_cases hklc : k = lc g
        · simp [hklc, mapGet_insert_self]
        · have h1 := mapGet_insert_ne
            { cat with name := some g } (mapErase key s.currentCategories) hklc
          have h2 := mapGet_erase_ne s.currentCategories hkne
          simp only [h1, h2]
          exact hsub k (by rw [hext]; exact List.mem_cons_of_mem key hkr)
      · simp [hext, countReuses_append, countReuses, isReuse, List.length_cons]
        omega

theorem processCritter_pool (lc : String → String) (groups : List (String × String))
    (s : DiffState) (c : Critter) (hnd : s.extraneous.Nodup)
    (hsub : ∀ k ∈ s.extraneous, mapGet k s.currentCategories ≠ none) :
    (resultState (processCritter lc groups s c)).extraneous.Nodup ∧
    (∀ k ∈ (resultState (processCritter lc groups s c)).extraneous,
      mapGet k (resultState (processCritter lc groups s c)).currentCategories ≠ none) ∧
    countReuses (resultState (processCritter lc groups s c)).plan +
      (resultState (processCritter lc groups s c)).extraneous.length =
      countReuses s.plan + s.extraneous.length ∧
    ∃ t, s.extraneous = t ++ (resultState (processCritter lc groups s c)).extraneous := by
  cases hs : c.species with
  | none =>
    have hr : resultState (processCritter lc groups s c) = s := by
      simp [processCritter, hs, resultState]
    rw [hr]
    exact ⟨hnd, hsub, rfl, ⟨[], rfl⟩⟩
  | some sci =>
    cases hcc : currentCategoryOf s c with
    | some cc =>
      cases hdc : desiredCategoryOf lc groups s sci with
      | some dc =>
        by_cases hid : cc.id = dc.id
        · have hr : resultState (processCritter lc groups s c) =
              { s with plan := s.plan ++ [.noOp c.id] } := by
            simp [processCritter, hs, hcc, hdc, hid, resultState]
          rw [hr]
          refine ⟨by simpa using hnd, by simpa using hsub, ?_, ⟨[], by simp⟩⟩
          simp [countReuses_append, countReuses, isReuse]
        · have hr : resultState (processCritter lc groups s c) =
              { s with plan := s.plan ++ [.reassign c.id (some cc.id) dc.id] } := by
            simp [processCritter, hs, hcc, hdc, hid, resultState]
          rw [hr]
          refine ⟨by simpa using hnd, by simpa using hsub, ?_, ⟨[], by simp⟩⟩
          simp [countReuses_append, countReuses, isReuse]
      | none =>
        cases hg : mapGet sci groups with
        | some g =>
          have hr : resultState (processCritter lc groups s c) = attemptReuse lc s c g := by
            simp [processCritter, hs, hcc, hdc, hg, resultState]
          rw [hr]
          exact attemptReuse_pool lc s c g hnd hsub
        | none =>
          have hr : resultState (processCritter lc groups s c) =
              { s with diags := s.diags ++ [.shouldNotHappen sci] } := by
            simp [processCritter, hs, hcc, hdc, hg, resultState]
          rw [hr]
          exact ⟨by simpa using hnd, by simpa using hsub, by simp, ⟨[], by simp⟩⟩
    | none =>
      cases hdc : desiredCategoryOf lc groups s sci with
      | some dc =>
        have hr : resultState (processCritter lc groups s c) =
            { s with plan := s.plan ++ [.reassign c.id none dc.id] } := by
          simp [processCritter, hs, hcc, hdc, resultState]
        rw [hr]
        refine ⟨by simpa using hnd, by simpa using hsub, ?_, ⟨[], by simp⟩⟩
        simp [countReuses_append, countReuses, isReuse]
      | none =>
        cases hg : mapGet sci groups with
        | some g =>
          have hr : resultState (processCritter lc groups s c) =
              { s with plan := s.plan ++ [.createNew c.id g] } := by
            simp [processCritter, hs, hcc, hdc, hg, resultState]
          rw [hr]
          refine ⟨by simpa using hnd, by simpa using hsub, ?_, ⟨[], by simp⟩⟩
          simp [countReuses_append, countReuses, isReuse]
        | none =>
          have hr : resultState (processCritter lc groups s c) = s := by
            simp [processCritter, hs, hcc, hdc, hg, resultState]
          rw [hr]
          exact ⟨hnd, hsub, rfl, ⟨[], rfl⟩⟩

theorem processAll_pool (lc : String → String) (groups : List (String × String)) :
    ∀ (cs : List Critter) (s : DiffState), s.extraneous.Nodup →
    (∀ k ∈ s.extraneous, mapGet k s.currentCategories ≠ none) →
    countReuses (resultState (processAll lc groups s cs)).plan +
      (resultState (processAll lc groups s cs)).extraneous.length =
      countReuses s.plan + s.extraneous.length ∧
    ∃ t, s.extraneous = t ++ (resultState (processAll lc groups s cs)).extraneous := by
  intro cs
  induction cs with
  | nil =>
    intro s _ _
    have hr : resultState (processAll lc groups s []) = s := by simp [processAll, resultState]
    rw [hr]
    exact ⟨rfl, ⟨[], rfl⟩⟩
  | cons c rest ih =>
    intro s hnd hsub
    have hstep := processCritter_pool lc groups s c hnd hsub
    cases hpc : processCritter lc groups s c with
    | ok s' =>
      rw [hpc] at hstep
      simp only [resultState] at hstep
      obtain ⟨hnd', hsub', hcount, t1, ht1⟩ := hstep
      obtain ⟨hcount2, t2, ht2⟩ := ih s' hnd' hsub'
      have hall : processAll lc groups s (c :: rest) = processAll lc groups s' rest := by
        simp [processAll, hpc]
      rw [hall]
      refine ⟨hcount2.trans hcount, ⟨t1 ++ t2, ?_⟩⟩
      rw [ht1, ht2, List.append_assoc]
    | error s' =>
      rw [hpc] at hstep
      simp only [resultState] at hstep
      obtain ⟨_, _, hcount, t1, ht1⟩ := hstep
      have hall : processAll lc groups s (c :: rest) = .error s' := by
        simp [processAll, hpc]
      rw [hall]
      exact ⟨hcount, ⟨t1, ht1⟩⟩

/-- C4: over one reconciliation run (whether it completes or panics), the
size of the extraneous pool before processing equals the number of
`RenameAndReuse` entries produced plus the size of the pool afterwards;
moreover the final pool is what remains of the initial enumeration after
removing the consumed members, so a consumed member is never offered
again.  Hypotheses: the pool enumeration has no duplicates and each pool
member is a key of the current-category map, which is how the source
builds it (the pool is a subset of the map's key set). -/
theorem c4_pool_conservation (lc : String → String) (resolve : String → ResolveOutcome)
    (critters : List Critter) (cats : List Category) (pool : List String)
    (hnd : pool.Nodup)
    (hsub : ∀ k ∈ pool, k ∈ (mkCurrentCategories lc cats).map Prod.fst) :
    countReuses (resultState (diffCritterCategories lc resolve critters cats pool)).plan +
      (resultState (diffCritterCategories lc resolve critters cats pool)).extraneous.length =
      pool.length ∧
    ∃ t, pool =
      t ++ (resultState (diffCritterCategories lc resolve critters cats pool)).extraneous := by
  have h := processAll_pool lc (buildGroups resolve critters).1 critters
    { currentCategories := mkCurrentCategories lc cats
      categoryIndex := mkCategoryIndex (mkCurrentCategories lc cats)
      extraneous := pool
      plan := []
      diags := (buildGroups resolve critters).2 }
    (by simpa using hnd)
    (by
      intro k hk
      exact mapGet_ne_none_of_mem_keys _ (hsub k (by simpa using hk)))
  have heq : diffCritterCategories lc resolve critters cats pool =
      processAll lc (buildGroups resolve critters).1
        { currentCategories := mkCurrentCategories lc cats
          categoryIndex := mkCategoryIndex (mkCurrentCategories lc cats)
          extraneous := pool
          plan := []
          diags := (buildGroups resolve critters).2 } critters := by
    simp [diffCritterCategories]
  rw [heq]
  simpa [countReuses] using h

/-- Catalog for the C4 witness. -/
def c4Cats : List Category :=
  [{ id := 1, name := some "Fish" }, { id := 2, name := some "Coral" }]

/-- Critters for the C4 witness: one `NoOp`, one reuse of `coral`. -/
def c4Critters : List Critter :=
  [{ id := 10, name := none, species := some "sx", category := some 1 },
   { id := 11, name := none, species := some "sy", category := some 1 }]

/-- Taxonomy answers for the C4 witness. -/
def c4Resolve (s : String) : ResolveOutcome :=
  if s = "sx" then .ok "Fish" else .ok "Mollusk"

/-- Witness for C4: one-element pool, one reuse, empty pool afterwards. -/
theorem c4_pool_conservation_witness :
    countReuses (resultState (diffCritterCategories lowerCase c4Resolve c4Critters
        c4Cats ["coral"])).plan +
      (resultState (diffCritterCategories lowerCase c4Resolve c4Critters
        c4Cats ["coral"])).extraneous.length = (["coral"] : List String).length ∧
    ∃ t, ["coral"] =
      t ++ (resultState (diffCritterCategories lowerCase c4Resolve c4Critters
        c4Cats ["coral"])).extraneous :=
  c4_pool_conservation lowerCase c4Resolve c4Critters c4Cats ["coral"]
    (by decide) (by decide)

/-! ## C8 — determinism and processing order -/

theorem attemptReuse_plan_delta (lc : String → String) (s : DiffState) (c : Critter)
    (g : String) :
    ∃ e, (attemptReuse lc s c g).plan = s.plan ++ [e] ∧ entryCritterId e = c.id := by
  cases hext : s.extraneous with
  | nil => exact ⟨.createNew c.id g, by simp [attemptReuse, hext], rfl⟩
  | cons key rest =>
    cases hcat : mapGet key s.currentCategories with
    | some cat =>
      exact ⟨.renameAndReuse c.id cat.id cat.name g, by simp [attemptReuse, hext, hcat], rfl⟩
    | none => exact ⟨.createNew c.id g, by simp [attemptReuse, hext, hcat], rfl⟩

theorem processCritter_plan_delta (lc : String → String) (groups : List (String × String))
    (s : DiffState) (c : Critter) :
    ∃ δ, (resultState (processCritter lc groups s c)).plan = s.plan ++ δ ∧
      List.Sublist (δ.map entryCritterId) [c.id] := by
  cases hs : c.species with
  | none => exact ⟨[], by simp [processCritter, hs, resultState], List.nil_sublist _⟩
  | some sci =>
    cases hcc : currentCategoryOf s c with
    | some cc =>
      cases hdc : desiredCategoryOf lc groups s sci with
      | some dc =>
        by_cases hid : cc.id = dc.id
        · exact ⟨[.noOp c.id], by simp [processCritter, hs, hcc, hdc, hid, resultState],
            by simp [entryCritterId]⟩
        · exact ⟨[.reassign c.id (some cc.id) dc.id],
            by simp [processCritter, hs, hcc, hdc, hid, resultState],
            by simp [entryCritterId]⟩
      | none =>
        cases hg : mapGet sci groups with
        | some g =>
          obtain ⟨e, he, hid⟩ := attemptReuse_plan_delta lc s c g
          refine ⟨[e], ?_, by simp [hid]⟩
          have hr : resultState (processCritter lc groups s c) = attemptReuse lc s c g := by
            simp [processCritter, hs, hcc, hdc, hg, resultState]
          rw [hr, he]
        | none =>
          exact ⟨[], by simp [processCritter, hs, hcc, hdc, hg, resultState],
            List.nil_sublist _⟩
    | none =>
      cases hdc : desiredCategoryOf lc groups s sci with
      | some dc =>
        exact ⟨[.reassign c.id none dc.id],
          by simp [processCritter, hs, hcc, hdc, resultState], by simp [entryCritterId]⟩
      | none =>
        cases hg : mapGet sci groups with
        | some g =>
          exact ⟨[.createNew c.id g], by simp [processCritter, hs, hcc, hdc, hg, resultState],
            by simp [entryCritterId]⟩
        | none =>
          exact ⟨[], by simp [processCritter, hs, hcc, hdc, hg, resultState],
            List.nil_sublist _⟩

theorem processAll_plan_sublist (lc : String → String) (groups : List (String × String)) :
    ∀ (cs : List Critter) (s : DiffState),
    ∃ δ, (resultState (processAll lc groups s cs)).plan = s.plan ++ δ ∧
      List.Sublist (δ.map entryCritterId) (cs.map Critter.id) := by
  intro cs
  induction cs with
  | nil =>
    intro s
    exact ⟨[], by simp [processAll, resultState], List.nil_sublist _⟩
  | cons c rest ih =>
    intro s
    obtain ⟨δ1, hδ1, hsub1⟩ := processCritter_plan_delta lc groups s c
    cases hpc : processCritter lc groups s c with
    | ok s' =>
      rw [hpc] at hδ1
      simp only [resultState] at hδ1
      obtain ⟨δ2, hδ2, hsub2⟩ := ih s'
      have hall : processAll lc groups s (c :: rest) = processAll lc groups s' rest := by
        simp [processAll, hpc]
      refine ⟨δ1 ++ δ2, ?_, ?_⟩
      · rw [hall, hδ2, hδ1, List.append_assoc]
      · have := List.Sublist.append hsub1 hsub2
        simpa using this
    | error s' =>
      rw [hpc] at hδ1
      simp only [resultState] at hδ1
      have hall : processAll lc groups s (c :: rest) = .error s' := by
        simp [processAll, hpc]
      refine ⟨δ1, by rw [hall]; exact hδ1, ?_⟩
      have hext : List.Sublist ([c.id] : List Int) (c.id :: rest.map Critter.id) :=
        List.Sublist.cons₂ c.id (List.nil_sublist _)
      exact (hsub1.trans hext).trans (by simp)

theorem diffCritterCategories_eq_processAll (lc : String → String)
    (resolve : String → ResolveOutcome) (critters : List Critter)
    (cats : List Category) (pool : List String) :
    diffCritterCategories lc resolve critters cats pool =
      processAll lc (buildGroups resolve critters).1
        { currentCategories := mkCurrentCategories lc cats
          categoryIndex := mkCategoryIndex (mkCurrentCategories lc cats)
          extraneous := pool
          plan := []
          diags := (buildGroups resolve critters).2 } critters := by
  simp [diffCritterCategories]

/-- C8 (amended): entities are processed in fixed source-catalog order —
the critter-id sequence of the produced plan is a sublist of the
catalog's id sequence, for every pool enumeration.  (The run is a pure
function of catalog, categories, taxonomy answers *and* the pool
enumeration, so two runs agree whenever the pool enumeration also agrees;
the companion counterexample shows it is not independent of that
enumeration.) -/
theorem c8_plan_in_catalog_order (lc : String → String)
    (resolve : String → ResolveOutcome) (critters : List Critter)
    (cats : List Category) (pool : List String) :
    List.Sublist
      (((resultState (diffCritterCategories lc resolve critters cats pool)).plan).map
        entryCritterId)
      (critters.map Critter.id) := by
  obtain ⟨δ, hδ, hsub⟩ := processAll_plan_sublist lc (buildGroups resolve critters).1 critters
    { currentCategories := mkCurrentCategories lc cats
      categoryIndex := mkCategoryIndex (mkCurrentCategories lc cats)
      extraneous := pool
      plan := []
      diags := (buildGroups resolve critters).2 }
  rw [diffCritterCategories_eq_processAll, hδ]
  simpa using hsub

/-- Categories for the C8 counterexample: two extraneous candidates plus
the critter's current category. -/
def c8Cats : List Category :=
  [{ id := 1, name := some "olda" }, { id := 2, name := some "oldb" },
   { id := 3, name := some "cur" }]

/-- Catalog for the C8 counterexample. -/
def c8Critters : List Critter :=
  [{ id := 10, name := none, species := some "sx", category := some 3 }]

/-- Taxonomy answers for the C8 counterexample. -/
def c8Resolve (s : String) : ResolveOutcome :=
  if s = "sx" then .ok "Newg" else .lookupFailed

/-- C8 counterexample: the extraneous pool is an unordered `HashSet`
difference, and two valid enumerations of the *same* extraneous set make
the run consume different pool members: the plan is not determined by
catalog, categories and taxonomy answers alone, refuting the claim that
two runs over the same inputs produce the same plan including which pool
member each `RenameAndReuse` consumes. -/
theorem c8_counterexample :
    validPool lowerCase (mkCurrentCategories lowerCase c8Cats)
      (buildGroups c8Resolve c8Critters).1 ["olda", "oldb", "cur"] ∧
    validPool lowerCase (mkCurrentCategories lowerCase c8Cats)
      (buildGroups c8Resolve c8Critters).1 ["oldb", "olda", "cur"] ∧
    (resultState (diffCritterCategories lowerCase c8Resolve c8Critters c8Cats
      ["olda", "oldb", "cur"])).plan ≠
    (resultState (diffCritterCategories lowerCase c8Resolve c8Critters c8Cats
      ["oldb", "olda", "cur"])).plan := by
  refine ⟨?_, ?_, ?_⟩
  · unfold validPool
    decide
  · unfold validPool
    decide
  · decide

/-! ## C9 — which entities get diagnostics -/

theorem buildGroupsAux_diags_mono (resolve : String → ResolveOutcome) :
    ∀ (cs : List Critter) (acc : List (String × String) × List Diag),
    ∃ δ, (buildGroupsAux resolve acc cs).2 = acc.2 ++ δ := by
  intro cs
  induction cs with
  | nil => intro acc; exact ⟨[], by simp [buildGroupsAux]⟩
  | cons c rest ih =>
    intro acc
    cases hs : c.species with
    | none =>
      obtain ⟨δ, hδ⟩ := ih acc
      exact ⟨δ, by simpa [buildGroupsAux, hs] using hδ⟩
    | some sci =>
      cases hr : resolve sci with
      | ok g =>
        obtain ⟨δ, hδ⟩ := ih (mapInsert sci g acc.1, acc.2)
        exact ⟨δ, by simpa [buildGroupsAux, hs, hr] using hδ⟩
      | classifyFailed =>
        obtain ⟨δ, hδ⟩ := ih acc
        exact ⟨δ, by simpa [buildGroupsAux, hs, hr] using hδ⟩
      | lookupFailed =>
        obtain ⟨δ, hδ⟩ := ih (acc.1, acc.2 ++ [.taxonLookupFailed sci])
        refine ⟨[Diag.taxonLookupFailed sci] ++ δ, ?_⟩
        simp only [buildGroupsAux, hs, hr] at hδ ⊢
        rw [hδ]
        simp

theorem buildGroupsAux_diag_mem (resolve : String → ResolveOutcome) :
    ∀ (cs : List Critter) (acc : List (String × String) × List Diag)
      (c : Critter) (sci : String), c ∈ cs → c.species = some sci →
      resolve sci = .lookupFailed →
      Diag.taxonLookupFailed sci ∈ (buildGroupsAux resolve acc cs).2 := by
  intro cs
  induction cs with
  | nil => intro acc c sci hc; exact absurd hc (List.not_mem_nil c)
  | cons c0 rest ih =>
    intro acc c sci hc hs hr
    rcases List.mem_cons.mp hc with hc1 | hc1
    · subst hc1
      obtain ⟨δ, hδ⟩ := buildGroupsAux_diags_mono resolve rest
        (acc.1, acc.2 ++ [.taxonLookupFailed sci])
      have hstep : buildGroupsAux resolve acc (c :: rest) =
          buildGroupsAux resolve (acc.1, acc.2 ++ [.taxonLookupFailed sci]) rest := by
        simp [buildGroupsAux, hs, hr]
      rw [hstep, hδ]
      simp
    · cases hs0 : c0.species with
      | none => simpa [buildGroupsAux, hs0] using ih acc c sci hc1 hs hr
      | some sci0 =>
        cases hr0 : resolve sci0 with
        | ok g =>
          simpa [buildGroupsAux, hs0, hr0] using
            ih (mapInsert sci0 g acc.1, acc.2) c sci hc1 hs hr
        | classifyFailed =>
          simpa [buildGroupsAux, hs0, hr0] using ih acc c sci hc1 hs hr
        | lookupFailed =>
          simpa [buildGroupsAux, hs0, hr0] using
            ih (acc.1, acc.2 ++ [.taxonLookupFailed sci0]) c sci hc1 hs hr

theorem processCritter_diags_mono (lc : String → String)
    (groups : List (String × String)) (s : DiffState) (c : Critter) :
    ∃ δ, (resultState (processCritter lc groups s c)).diags = s.diags ++ δ := by
  cases hs : c.species with
  | none => exact ⟨[], by simp [processCritter, hs, resultState]⟩
  | some sci =>
    cases hcc : currentCategoryOf s c with
    | some cc =>
      cases hdc : desiredCategoryOf lc groups s sci with
      | some dc =>
        by_cases hid : cc.id = dc.id
        · exact ⟨[], by simp [processCritter, hs, hcc, hdc, hid, resultState]⟩
        · exact ⟨[], by simp [processCritter, hs, hcc, hdc, hid, resultState]⟩
      | none =>
        cases hg : mapGet sci groups with
        | some g =>
          have hr : resultState (processCritter lc groups s c) = attemptReuse lc s c g := by
            simp [processCritter, hs, hcc, hdc, hg, resultState]
          rw [hr]
          cases hext : s.extraneous with
          | nil => exact ⟨[], by simp [attemptReuse, hext]⟩
          | cons key rest =>
            cases hcat : mapGet key s.currentCategories with
            | some cat => exact ⟨[], by simp [attemptReuse, hext, hcat]⟩
            | none => exact ⟨[], by simp [attemptReuse, hext, hcat]⟩
        | none =>
          exact ⟨[.shouldNotHappen sci],
            by simp [processCritter, hs, hcc, hdc, hg, resultState]⟩
    | none =>
      cases hdc : desiredCategoryOf lc groups s sci with
      | some dc => exact ⟨[], by simp [processCritter, hs, hcc, hdc, resultState]⟩
      | none =>
        cases hg : mapGet sci groups with
        | some g => exact ⟨[], by simp [processCritter, hs, hcc, hdc, hg, resultState]⟩
        | none => exact ⟨[], by simp [processCritter, hs, hcc, hdc, hg, resultState]⟩

theorem processAll_diags_mono (lc : String → String) (groups : List (String × String)) :
    ∀ (cs : List Critter) (s : DiffState),
    ∃ δ, (resultState (processAll lc groups s cs)).diags = s.diags ++ δ := by
  intro cs
  induction cs with
  | nil => intro s; exact ⟨[], by simp [processAll, resultState]⟩
  | cons c rest ih =>
    intro s
    obtain ⟨δ1, hδ1⟩ := processCritter_diags_mono lc groups s c
    cases hpc : processCritter lc groups s c with
    | ok s' =>
      rw [hpc] at hδ1
      simp only [resultState] at hδ1
      obtain ⟨δ2, hδ2⟩ := ih s'
      have hall : processAll lc groups s (c :: rest) = processAll lc groups s' rest := by
        simp [processAll, hpc]
      exact ⟨δ1 ++ δ2, by rw [hall, hδ2, hδ1, List.append_assoc]⟩
    | error s' =>
      rw [hpc] at hδ1
      simp only [resultState] at hδ1
      have hall : processAll lc groups s (c :: rest) = .error s' := by
        simp [processAll, hpc]
      exact ⟨δ1, by rw [hall]; exact hδ1⟩

theorem processCritter_resolvable_entry (lc : String → String)
    (groups : List (String × String)) (s : DiffState) (c : Critter)
    (sci g : String) (hs : c.species = some sci) (hg : mapGet sci groups = some g) :
    ∃ s₂ e, processCritter lc groups s c = .ok s₂ ∧
      s₂.plan = s.plan ++ [e] ∧ entryCritterId e = c.id := by
  cases hcc : currentCategoryOf s c with
  | some cc =>
    cases hdc : desiredCategoryOf lc groups s sci with
    | some dc =>
      by_cases hid : cc.id = dc.id
      · exact ⟨{ s with plan := s.plan ++ [.noOp c.id] }, .noOp c.id,
          by simp [processCritter, hs, hcc, hdc, hid], by simp, rfl⟩
      · exact ⟨{ s with plan := s.plan ++ [.reassign c.id (some cc.id) dc.id] },
          .reassign c.id (some cc.id) dc.id,
          by simp [processCritter, hs, hcc, hdc, hid], by simp, rfl⟩
    | none =>
      obtain ⟨e, he, hid⟩ := attemptReuse_plan_delta lc s c g
      exact ⟨attemptReuse lc s c g, e,
        by simp [processCritter, hs, hcc, hdc, hg], he, hid⟩
  | none =>
    cases hdc : desiredCategoryOf lc groups s sci with
    | some dc =>
      exact ⟨{ s with plan := s.plan ++ [.reassign c.id none dc.id] },
        .reassign c.id none dc.id,
        by simp [processCritter, hs, hcc, hdc], by simp, rfl⟩
    | none =>
      exact ⟨{ s with plan := s.plan ++ [.createNew c.id g] }, .createNew c.id g,
        by simp [processCritter, hs, hcc, hdc, hg], by simp, rfl⟩

theorem processAll_ok_coverage (lc : String → String) (groups : List (String × String)) :
    ∀ (cs : List Critter) (s s' : DiffState), processAll lc groups s cs = .ok s' →
    ∀ c ∈ cs, ∀ sci, c.species = some sci →
    (∃ e, e ∈ s'.plan ∧ entryCritterId e = c.id) ∨
      Diag.shouldNotHappen sci ∈ s'.diags := by
  intro cs
  induction cs with
  | nil =>
    intro s s' _ c hc
    exact absurd hc (List.not_mem_nil c)
  | cons c0 rest ih =>
    intro s s' hok c hc sci hs
    cases hpc : processCritter lc groups s c0 with
    | error s₁ =>
      simp only [processAll, hpc] at hok
      exact Except.noConfusion hok
    | ok s₁ =>
      have hrest : processAll lc groups s₁ rest = .ok s' := by
        simpa only [processAll, hpc] using hok
      rcases List.mem_cons.mp hc with hceq | hcr
      · subst hceq
        cases hg : mapGet sci groups with
        | some g =>
          obtain ⟨s₂, e, hstep, hplan, hid⟩ :=
            processCritter_resolvable_entry lc groups s c sci g hs hg
          have hs12 : s₂ = s₁ := by
            have := hstep.symm.trans hpc
            exact Except.ok.inj this
          obtain ⟨δ, hδ, _⟩ := processAll_plan_sublist lc groups rest s₁
          rw [hrest] at hδ
          simp only [resultState] at hδ
          refine Or.inl ⟨e, ?_, hid⟩
          rw [hδ, ← hs12, hplan]
          simp
        | none =>
          cases hcc : currentCategoryOf s c with
          | some cc =>
            have hdc : desiredCategoryOf lc groups s sci = none := by
              simp [desiredCategoryOf, hg]
            have hstep : processCritter lc groups s c =
                .ok { s with diags := s.diags ++ [.shouldNotHappen sci] } := by
              simp [processCritter, hs, hcc, hdc, hg]
            have hs12 : ({ s with diags := s.diags ++ [.shouldNotHappen sci] } :
                DiffState) = s₁ := by
              have := hstep.symm.trans hpc
              exact Except.ok.inj this
            obtain ⟨δ, hδ⟩ := processAll_diags_mono lc groups rest s₁
            rw [hrest] at hδ
            simp only [resultState] at hδ
            refine Or.inr ?_
            rw [hδ, ← hs12]
            simp
          | none =>
            have hdc : desiredCategoryOf lc groups s sci = none := by
              simp [desiredCategoryOf, hg]
            have hstep : processCritter lc groups s c = .error s := by
              simp [processCritter, hs, hcc, hdc, hg]
            rw [hstep] at hpc
            exact Except.noConfusion hpc
      · exact ih s₁ s' hrest c hcr sci hs

/-- C9 (amended): for every entity that has a species name, if the run
completes and the plan contains no entry for that entity, then a
diagnostic naming that species is recorded: the per-entity loop emits the
`This should not happen` diagnostic, and when the taxon lookup itself
failed the group-resolution pass has additionally logged `Taxon lookup
failed`.  The species-name restriction is forced by the companion
counterexample: an entity without a species name is skipped with no plan
entry and no diagnostic.  (An entity with an unresolved species and no
current category prevents the run from completing at all — the panic of
C1 — so it is outside the completed-run guarantee.) -/
theorem c9_species_entities_not_dropped_silently (lc : String → String)
    (resolve : String → ResolveOutcome) (critters : List Critter)
    (cats : List Category) (pool : List String) (s' : DiffState)
    (c : Critter) (sci : String)
    (hok : diffCritterCategories lc resolve critters cats pool = .ok s')
    (hc : c ∈ critters) (hs : c.species = some sci)
    (hnoentry : ∀ e ∈ s'.plan, entryCritterId e ≠ c.id) :
    Diag.shouldNotHappen sci ∈ s'.diags ∧
    (resolve sci = .lookupFailed → Diag.taxonLookupFailed sci ∈ s'.diags) := by
  have hrun : processAll lc (buildGroups resolve critters).1
      { currentCategories := mkCurrentCategories lc cats
        categoryIndex := mkCategoryIndex (mkCurrentCategories lc cats)
        extraneous := pool
        plan := []
        diags := (buildGroups resolve critters).2 } critters = .ok s' := by
    rw [← diffCritterCategories_eq_processAll]
    exact hok
  constructor
  · rcases processAll_ok_coverage lc (buildGroups resolve critters).1 critters _ s'
      hrun c hc sci hs with ⟨e, he, hid⟩ | hdiag
    · exact absurd hid (hnoentry e he)
    · exact hdiag
  · intro hf
    have hmem : Diag.taxonLookupFailed sci ∈ (buildGroups resolve critters).2 :=
      buildGroupsAux_diag_mem resolve critters ([], []) c sci hc hs hf
    obtain ⟨δ, hδ⟩ := processAll_diags_mono lc (buildGroups resolve critters).1 critters
      { currentCategories := mkCurrentCategories lc cats
        categoryIndex := mkCategoryIndex (mkCurrentCategories lc cats)
        extraneous := pool
        plan := []
        diags := (buildGroups resolve critters).2 }
    rw [hrun] at hδ
    simp only [resultState] at hδ
    rw [hδ]
    exact List.mem_append_left _ hmem

/-- Witness for C9's amended theorem: a completed run in which the single
entity's lookup fails, it has a current category, gets no plan entry, and
both diagnostics name its species. -/
theorem c9_species_entities_not_dropped_silently_witness :
    Diag.shouldNotHappen "z" ∈
      ({ currentCategories := [("fish", { id := 1, name := some "Fish" })]
         categoryIndex := [(1, "fish")]
         extraneous := []
         plan := []
         diags := [.taxonLookupFailed "z", .shouldNotHappen "z"] } : DiffState).diags ∧
    ((fun _ => ResolveOutcome.lookupFailed) "z" = ResolveOutcome.lookupFailed →
      Diag.taxonLookupFailed "z" ∈
        ({ currentCategories := [("fish", { id := 1, name := some "Fish" })]
           categoryIndex := [(1, "fish")]
           extraneous := []
           plan := []
           diags := [.taxonLookupFailed "z", .shouldNotHappen "z"] } : DiffState).diags) :=
  c9_species_entities_not_dropped_silently lowerCase (fun _ => .lookupFailed)
    [{ id := 1, name := none, species := some "z", category := some 1 }]
    [{ id := 1, name := some "Fish" }] []
    { currentCategories := [("fish", { id := 1, name := some "Fish" })]
      categoryIndex := [(1, "fish")]
      extraneous := []
      plan := []
      diags := [.taxonLookupFailed "z", .shouldNotHappen "z"] }
    { id := 1, name := none, species := some "z", category := some 1 } "z"
    rfl (by decide) rfl (by decide)

/-- C9 counterexample: a critter without a species name is skipped
entirely — the run completes with an empty plan (no entry for entity 1)
and an empty diagnostics list, so the entity is dropped silently,
refuting the claim that every entity without a plan entry has a recorded
diagnostic. -/
theorem c9_counterexample :
    diffCritterCategories lowerCase (fun _ => .lookupFailed)
      [{ id := 1, name := none, species := none, category := none }] [] [] =
    .ok { currentCategories := [], categoryIndex := [], extraneous := [],
          plan := [], diags := [] } := by
  rfl

/-! ## The taxonomy resolver cache (C6, C7)

The `crate::inaturalist` module (the memoizing cache behind
`cache_species` and `get_taxon_by_name`) is not part of this repository
snapshot; it is modelled from §4.1 of the specification. -/

/-- Modelled from the spec: the external `TaxonRecord` of §3 (the fields
the resolver caches; `groupName` derivation is out of scope here). -/
structure TaxonRecord where
  scientificName : String
  preferredCommonName : Option String
deriving DecidableEq, Repr

/-- Modelled from the spec: the cached outcome of one external lookup —
`Result<TaxonRecord, LookupError>`; failures are cached like successes. -/
inductive LookupResult where
  | found (t : TaxonRecord)
  | failed (msg : String)
deriving DecidableEq, Repr

/-- Modelled from the spec: the shared memoizing cache of the
`TaxonResolver` — a mapping from normalized species name to resolved
result, plus the trace of external invocations actually issued (in
order). -/
structure TaxonCache where
  entries : List (String × LookupResult)
  calls : List String
deriving DecidableEq, Repr

/-- Modelled from the spec: `crate::inaturalist::get_taxon_by_name` as a
single-flight memoized lookup: a key already resolved (success or failure
alike) is returned without touching the external service; otherwise the
external lookup is invoked exactly once and its result stored. -/
def getTaxonByName (norm : String → String) (ext : String → LookupResult)
    (st : TaxonCache) (name : String) : LookupResult × TaxonCache :=
  match mapGet (norm name) st.entries with
  | some r => (r, st)
  | none =>
    let r := ext (norm name)
    (r, { entries := mapInsert (norm name) r st.entries
          calls := st.calls ++ [norm name] })

/-- Modelled from the spec: `crate::inaturalist::cache_species` — the
priming pass resolving every requested species name through the memoizing
cache.  The bounded-concurrency fan-out that is joined before any reader
runs is modelled as a fold over an arbitrary request order (the theorems
below quantify over that order). -/
def cacheSpecies (norm : String → String) (ext : String → LookupResult)
    (names : List String) (st : TaxonCache) : TaxonCache :=
  names.foldl (fun s n => (getTaxonByName norm ext s n).2) st

/-- The species list that `diff_critters` collects and passes to the
priming pass (lines 13-18 of `critters.rs`): every critter's species, in
catalog order, duplicates included. -/
def collectSpecies (critters : List Critter) : List String :=
  critters.filterMap Critter.species

/-- Cache invariant: the invocation trace has no duplicates and a key is
resolved exactly when it has been invoked. -/
def cacheConsistent (st : TaxonCache) : Prop :=
  st.calls.Nodup ∧ ∀ k, (mapGet k st.entries ≠ none ↔ k ∈ st.calls)

theorem cacheSpecies_spec (norm : String → String) (ext : String → LookupResult) :
    ∀ (names : List String) (st : TaxonCache), cacheConsistent st →
    cacheConsistent (cacheSpecies norm ext names st) ∧
    ∀ k, k ∈ (cacheSpecies norm ext names st).calls ↔
      (k ∈ st.calls ∨ k ∈ names.map norm) := by
  intro names
  induction names with
  | nil =>
    intro st h
    exact ⟨h, fun k => by simp [cacheSpecies]⟩
  | cons n rest ih =>
    intro st h
    by_cases hc : mapGet (norm n) st.entries = none
    · have hstep : cacheSpecies norm ext (n :: rest) st =
          cacheSpecies norm ext rest
            { entries := mapInsert (norm n) (ext (norm n)) st.entries
              calls := st.calls ++ [norm n] } := by
        simp [cacheSpecies, getTaxonByName, hc]
      have hnotin : norm n ∉ st.calls := fun hm => ((h.2 (norm n)).mpr hm) hc
      have hcons : cacheConsistent
          { entries := mapInsert (norm n) (ext (norm n)) st.entries
            calls := st.calls ++ [norm n] } := by
        constructor
        · rw [List.nodup_append]
          exact ⟨h.1, List.nodup_singleton _, by simpa using hnotin⟩
        · intro k
          by_cases hk : k = norm n
          · subst hk
            simp [mapGet_insert_self]
          · have h1 := mapGet_insert_ne (ext (norm n)) st.entries hk
            simp only [h1]
            have h2 := h.2 k
            simp [h2, hk]
      obtain ⟨hcons', hiff'⟩ := ih _ hcons
      rw [hstep]
      refine ⟨hcons', fun k => ?_⟩
      rw [hiff' k]
      simp only [List.mem_append, List.mem_singleton, List.map_cons, List.mem_cons]
      tauto
    · obtain ⟨r, hr⟩ : ∃ r, mapGet (norm n) st.entries = some r := by
        cases hm : mapGet (norm n) st.entries with
        | none => exact absurd hm hc
        | some r => exact ⟨r, rfl⟩
      have hstep : cacheSpecies norm ext (n :: rest) st = cacheSpecies norm ext rest st := by
        simp [cacheSpecies, getTaxonByName, hr]
      have hin : norm n ∈ st.calls := (h.2 (norm n)).mp hc
      obtain ⟨hcons', hiff'⟩ := ih st h
      rw [hstep]
      refine ⟨hcons', fun k => ?_⟩
      rw [hiff' k]
      constructor
      · intro hk
        rcases hk with hk | hk
        · exact Or.inl hk
        · exact Or.inr (by rw [List.map_cons]; exact List.mem_cons_of_mem _ hk)
      · intro hk
        rcases hk with hk | hk
        · exact Or.inl hk
        · simp only [List.map_cons, List.mem_cons] at hk
          rcases hk with hk | hk
          · exact Or.inl (hk ▸ hin)
          · exact Or.inr hk

/-- C6: the priming pass of `diff_critters` collects every critter's
species name and resolves all of them through the cache before the
per-critter loop runs: afterwards every referenced species key is
resolved in the cache, and the external invocations issued are exactly
the distinct set of (normalized) species names referenced by the full
catalog — each exactly once. -/
theorem c6_priming_pass (norm : String → String) (ext : String → LookupResult)
    (critters : List Critter) :
    (∀ c ∈ critters, ∀ sci, c.species = some sci →
      mapGet (norm sci)
        (cacheSpecies norm ext (collectSpecies critters)
          { entries := [], calls := [] }).entries ≠ none) ∧
    (cacheSpecies norm ext (collectSpecies critters)
      { entries := [], calls := [] }).calls.Nodup ∧
    (∀ k, k ∈ (cacheSpecies norm ext (collectSpecies critters)
        { entries := [], calls := [] }).calls ↔
      k ∈ (collectSpecies critters).map norm) := by
  have h0 : cacheConsistent { entries := [], calls := [] } :=
    ⟨List.nodup_nil, fun k => by simp [mapGet]⟩
  obtain ⟨⟨hnd, hiff⟩, hcalls⟩ :=
    cacheSpecies_spec norm ext (collectSpecies critters) _ h0
  refine ⟨?_, hnd, fun k => by simpa using hcalls k⟩
  intro c hc sci hs
  have hmem : sci ∈ collectSpecies critters := by
    simp only [collectSpecies, List.mem_filterMap]
    exact ⟨c, hc, hs⟩
  have hk : norm sci ∈ (collectSpecies critters).map norm :=
    List.mem_map_of_mem norm hmem
  exact (hiff (norm sci)).mpr ((hcalls (norm sci)).mpr (Or.inr hk))

/-- Witness for C6: two critters sharing species `x`, one with species
`y`; after priming both keys are resolved and the invocation trace has no
duplicates. -/
theorem c6_priming_pass_witness :
    mapGet (lowerCase "x")
      (cacheSpecies lowerCase (fun _ => .failed "e")
        (collectSpecies
          [{ id := 1, name := none, species := some "x", category := none },
           { id := 2, name := none, species := some "x", category := none },
           { id := 3, name := none, species := some "y", category := none }])
        { entries := [], calls := [] }).entries ≠ none ∧
    (cacheSpecies lowerCase (fun _ => .failed "e")
      (collectSpecies
        [{ id := 1, name := none, species := some "x", category := none },
         { id := 2, name := none, species := some "x", category := none },
         { id := 3, name := none, species := some "y", category := none }])
      { entries := [], calls := [] }).calls.Nodup :=
  ⟨(c6_priming_pass lowerCase (fun _ => .failed "e")
      [{ id := 1, name := none, species := some "x", category := none },
       { id := 2, name := none, species := some "x", category := none },
       { id := 3, name := none, species := some "y", category := none }]).1
    { id := 1, name := none, species := some "x", category := none }
    (by decide) "x" rfl,
   (c6_priming_pass lowerCase (fun _ => .failed "e")
      [{ id := 1, name := none, species := some "x", category := none },
       { id := 2, name := none, species := some "x", category := none },
       { id := 3, name := none, species := some "y", category := none }]).2.1⟩

/-- C7: for any request order and multiplicity — N entities sharing a
species name however interleaved — the external lookup is invoked exactly
once for that (normalized) name during the run, and a later reader gets
the already-resolved value (success or failure alike) back from the cache
without a further external call (the cache state is returned unchanged). -/
theorem c7_at_most_once_lookup (norm : String → String) (ext : String → LookupResult)
    (names : List String) (n : String) (hn : n ∈ names) :
    (cacheSpecies norm ext names { entries := [], calls := [] }).calls.count (norm n) = 1 ∧
    ∃ r, mapGet (norm n)
        (cacheSpecies norm ext names { entries := [], calls := [] }).entries = some r ∧
      getTaxonByName norm ext
        (cacheSpecies norm ext names { entries := [], calls := [] }) n =
        (r, cacheSpecies norm ext names { entries := [], calls := [] }) := by
  have h0 : cacheConsistent { entries := [], calls := [] } :=
    ⟨List.nodup_nil, fun k => by simp [mapGet]⟩
  obtain ⟨⟨hnd, hiff⟩, hcalls⟩ := cacheSpecies_spec norm ext names _ h0
  have hmem : norm n ∈ (cacheSpecies norm ext names { entries := [], calls := [] }).calls :=
    (hcalls (norm n)).mpr (Or.inr (List.mem_map_of_mem norm hn))
  constructor
  · have hle := List.nodup_iff_count_le_one.mp hnd (norm n)
    have hge := List.count_pos_iff.mpr hmem
    omega
  · have hne := (hiff (norm n)).mpr hmem
    obtain ⟨r, hr⟩ : ∃ r, mapGet (norm n)
        (cacheSpecies norm ext names { entries := [], calls := [] }).entries = some r := by
      cases hm : mapGet (norm n)
          (cacheSpecies norm ext names { entries := [], calls := [] }).entries with
      | none => exact absurd hm hne
      | some r => exact ⟨r, rfl⟩
    exact ⟨r, hr, by simp [getTaxonByName, hr]⟩

/-- Witness for C7: three requests, two of them for `x`; exactly one
external call for `x` and a cached re-read. -/
theorem c7_at_most_once_lookup_witness :
    (cacheSpecies lowerCase (fun _ => .failed "e") ["x", "x", "y"]
      { entries := [], calls := [] }).calls.count (lowerCase "x") = 1 ∧
    ∃ r, mapGet (lowerCase "x")
        (cacheSpecies lowerCase (fun _ => .failed "e") ["x", "x", "y"]
          { entries := [], calls := [] }).entries = some r ∧
      getTaxonByName lowerCase (fun _ => .failed "e")
        (cacheSpecies lowerCase (fun _ => .failed "e") ["x", "x", "y"]
          { entries := [], calls := [] }) "x" =
        (r, cacheSpecies lowerCase (fun _ => .failed "e") ["x", "x", "y"]
          { entries := [], calls := [] }) :=
  c7_at_most_once_lookup lowerCase (fun _ => .failed "e") ["x", "x", "y"] "x" (by decide)
